import Mathlib

/-!
Shallow embedding of the text-analysis service in `api.py` and proofs about it.

Text is modelled as `List Char` (Python strings are indexed by character, and
slicing `s[a:b]` with natural bounds is `(s.drop a).take (b - a)`, clamped at
the ends, which `List.take`/`List.drop` reproduce exactly).  The two remote
services (grammar checker, translator) are opaque oracles: the grammar checker
appears as the list of matches it returned, and the translator as a function
from the call index and the queried word to either a translation or an error
message, so that distinct calls on the same word may differ, as with the real
remote service.  Python `dict`s are modelled as insertion-ordered association
lists whose insert updates an existing key in place and appends a new key.
-/

set_option autoImplicit false

namespace Api

/-- One flagged span from the grammar checker (`language_tool_python` match).
`offset` and `errorLength` are the natural-number span bounds, `ruleIssueType`
the category, `replacements` the ordered candidate fixes. -/
structure CheckMatch where
  offset : Nat
  errorLength : Nat
  ruleIssueType : String
  message : String
  replacements : List (List Char)
deriving DecidableEq, Repr

/-- Python `str.isspace`-style whitespace, as used by `str.split()` and by the
regex class `\S` on the characters relevant here. -/
def pyIsSpace (c : Char) : Bool :=
  c == ' ' || c == '\t' || c == '\n' || c == '\r' || c == '\x0b' || c == '\x0c'

/-- Helper for `pySplit`: scan the text, accumulating the current token in
reverse. Mirrors Python `str.split()` with no argument: runs of whitespace
separate tokens and empty tokens are dropped. -/
def pySplitGo : List Char → List Char → List (List Char)
  | [], acc => if acc.isEmpty then [] else [acc.reverse]
  | c :: cs, acc =>
    if pyIsSpace c then
      if acc.isEmpty then pySplitGo cs [] else acc.reverse :: pySplitGo cs []
    else pySplitGo cs (c :: acc)

/-- Python `text.split()`: whitespace-delimited tokens of `text`. -/
def pySplit (text : List Char) : List (List Char) :=
  pySplitGo text []

/-- Python `word.isascii()`: every character has code point below 128. -/
def pyIsAscii (w : List Char) : Bool :=
  w.all fun c => decide (c.toNat < 128)

/-- The body of the loop in `TextAnalyzer.apply_corrections` for one match:
if `match.replacements` is non-empty, splice its first element over
`corrected_text[match.offset : match.offset + match.errorLength]`; otherwise
leave the text unchanged. -/
def applyOne (text : List Char) (m : CheckMatch) : List Char :=
  match m.replacements with
  | [] => text
  | r :: _ => text.take m.offset ++ r ++ text.drop (m.offset + m.errorLength)

/-- `TextAnalyzer.apply_corrections(text, matches)`: iterate `applyOne` over
`reversed(matches)`. -/
def apply_corrections (text : List Char) (ms : List CheckMatch) : List Char :=
  ms.reverse.foldl applyOne text

/-- Lookup in a Python `dict` modelled as an association list (first, hence
only, binding of the key). -/
def dictLookup {β : Type} : List (List Char × β) → List Char → Option β
  | [], _ => none
  | (k, v) :: d, w => if k = w then some v else dictLookup d w

/-- Python `d[k] = v` on a `dict` modelled as an insertion-ordered association
list: update the (unique) binding of `k` in place if `k` is present, else
append the new binding at the end, as dict assignment preserves insertion
order. -/
def dictInsert {β : Type} : List (List Char × β) → List Char → β →
    List (List Char × β)
  | [], k, v => [(k, v)]
  | (k2, v2) :: d, k, v =>
    if k2 = k then (k2, v) :: d else (k2, v2) :: dictInsert d k v

/-- The result of one call of `self.translator.translate(word, src='ru',
dest='en')` inside `translate_native_words`, at call index `i`: the translated
text on success, or the localized placeholder built from the stringified
exception on failure (`translations[word] = f"Ошибка перевода: {str(e)}"`). -/
def transResult (oracle : Nat → List Char → Except (List Char) (List Char))
    (i : Nat) (w : List Char) : List Char :=
  match oracle i w with
  | Except.ok t => t
  | Except.error e => "Ошибка перевода: ".toList ++ e

/-- The `for word in native_words` loop of `translate_native_words`,
threading the translator call index `i` and the `translations` dict. -/
def tnwLoop (oracle : Nat → List Char → Except (List Char) (List Char)) :
    List (List Char × List Char) → Nat → List (List Char) →
    List (List Char × List Char)
  | d, _, [] => d
  | d, i, w :: ws => tnwLoop oracle (dictInsert d w (transResult oracle i w)) (i + 1) ws

/-- `TextAnalyzer.translate_native_words(native_words)`: the sentinel
single-entry dict when `native_words` is empty, otherwise the per-word
translation loop starting from the empty dict. -/
def translate_native_words
    (oracle : Nat → List Char → Except (List Char) (List Char))
    (native_words : List (List Char)) : List (List Char × List Char) :=
  if native_words.isEmpty then
    [("Нет слов на родном языке".toList, "Перевод не требуется".toList)]
  else
    tnwLoop oracle [] 0 native_words

/-- One entry of `error_details` built in `TextAnalyzer.analyze_text`. -/
structure ErrorDetail where
  type : String
  text : List Char
  message : String
  suggestions : List (List Char)
deriving DecidableEq, Repr

/-- The projection of one match to its `error_details` record in
`analyze_text`: `text[match.offset : match.offset + match.errorLength]` is
`(text.drop offset).take errorLength`. -/
def mkErrorDetail (text : List Char) (m : CheckMatch) : ErrorDetail :=
  { type := m.ruleIssueType
    text := (text.drop m.offset).take m.errorLength
    message := m.message
    suggestions := m.replacements }

/-- The list comprehension
`[word for word in text.split() if not word.isascii()]` in `analyze_text`. -/
def nativeWords (text : List Char) : List (List Char) :=
  (pySplit text).filter fun w => ! pyIsAscii w

/-- The dictionary returned by `TextAnalyzer.analyze_text`. -/
structure AnalysisResult where
  corrected_text : List Char
  error_count : Nat
  word_count : Nat
  error_details : List ErrorDetail
  translations : List (List Char × List Char)
deriving DecidableEq, Repr

/-- `TextAnalyzer.analyze_text(text)`, with the grammar checker's reply
(`self.tool.check(text)`) passed in as `matches` and the translator as
`oracle`. -/
def analyze_text (oracle : Nat → List Char → Except (List Char) (List Char))
    (text : List Char) (ms : List CheckMatch) : AnalysisResult :=
  { corrected_text := apply_corrections text ms
    error_count := ms.length
    word_count := (pySplit text).length
    error_details := ms.map (mkErrorDetail text)
    translations := translate_native_words oracle (nativeWords text) }

/-- The character class `[.!?]` of the regex in `translate_to_russian`. -/
def pyIsPunct (c : Char) : Bool :=
  c == '.' || c == '!' || c == '?'

/-- `re.sub(r'([.!?])(\S)', r'\1 \2', s)`: scan left to right; at each
position, if a sentence-ending punctuation character is immediately followed
by a non-whitespace character, emit both with a space between them and resume
scanning after the consumed pair (regex matches do not overlap); otherwise
emit the character and move one position. -/
def pySubPunctSpace : List Char → List Char
  | [] => []
  | [c] => [c]
  | c1 :: c2 :: rest =>
    if pyIsPunct c1 && ! pyIsSpace c2 then c1 :: ' ' :: c2 :: pySubPunctSpace rest
    else c1 :: pySubPunctSpace (c2 :: rest)

/-- The `/translate_to_russian` endpoint body: one whole-text call of the
translation oracle; on success the reply is the original text paired with the
oracle output normalized by `pySubPunctSpace`, on failure the stringified
exception is returned as an error value instead of raising. -/
def translate_to_russian (oracle : List Char → Except (List Char) (List Char))
    (text : List Char) : Except (List Char) (List Char × List Char) :=
  match oracle text with
  | Except.ok t => Except.ok (text, pySubPunctSpace t)
  | Except.error e => Except.error e

/-- One step of `collections.Counter`: bump the count of `k` in place if the
category is present, else append it with count 1, keeping first-occurrence
order (a `Counter` is an insertion-ordered dict). -/
def counterAdd : List (String × Nat) → String → List (String × Nat)
  | [], k => [(k, 1)]
  | (k2, n) :: d, k =>
    if k2 = k then (k2, n + 1) :: d else (k2, n) :: counterAdd d k

/-- `Counter(error_types)` as the ordered list of (category, count) pairs. -/
def pyCounter (l : List String) : List (String × Nat) :=
  l.foldl counterAdd []

/-- `TextAnalyzer.create_error_chart(matches)` up to the opaque renderer: the
bar data handed to the chart library, one bar per `ruleIssueType` category
with its occurrence count. -/
def create_error_chart (ms : List CheckMatch) : List (String × Nat) :=
  pyCounter (ms.map fun m => m.ruleIssueType)

/-- The two possible replies of the `/error_chart` endpoint: a JSON message,
or the PNG rendered from the given bar data. -/
inductive ChartResponse where
  | message (msg : String)
  | image (bars : List (String × Nat))
deriving DecidableEq, Repr

/-- The `/error_chart` endpoint body: with the grammar checker's reply passed
in as `ms`, return the no-error message when it is empty, otherwise render
the chart built by `create_error_chart`. -/
def error_chart (ms : List CheckMatch) : ChartResponse :=
  if ms.isEmpty then ChartResponse.message "Ошибок не обнаружено"
  else ChartResponse.image (create_error_chart ms)

/-- Spec-side predicate: no sentence-ending punctuation character is
immediately followed by a non-whitespace character anywhere in the string. -/
def noPunctThenNonspace : List Char → Bool
  | c1 :: c2 :: rest => (!(pyIsPunct c1 && ! pyIsSpace c2)) && noPunctThenNonspace (c2 :: rest)
  | _ => true

/-- Spec-side predicate: no two adjacent sentence-ending punctuation
characters occur in the string. -/
def noAdjacentPunct : List Char → Bool
  | c1 :: c2 :: rest => (!(pyIsPunct c1 && pyIsPunct c2)) && noAdjacentPunct (c2 :: rest)
  | _ => true

/-- Index of the last occurrence of `w` in the list, counting from `i`. -/
def lastIdxFrom (w : List Char) : List (List Char) → Nat → Option Nat
  | [], _ => none
  | x :: xs, i =>
    match lastIdxFrom w xs (i + 1) with
    | some j => some j
    | none => if x = w then some i else none

/-! ### Helper lemmas -/

theorem foldl_applyOne_id (text : List Char) (l : List CheckMatch)
    (h : ∀ m, m ∈ l → m.replacements = []) : l.foldl applyOne text = text := by
  induction l generalizing text with
  | nil => rfl
  | cons m l ih =>
    have hm : applyOne text m = text := by
      unfold applyOne
      rw [h m (List.mem_cons_self m l)]
    rw [List.foldl_cons, hm]
    exact ih text fun x hx => h x (List.mem_cons_of_mem m hx)

/-! ### Claims -/

/-- C1: `apply_corrections` processes the matches in reverse of their given
order (last match first); a match with a non-empty `replacements` list splices
its first replacement over `[offset, offset + errorLength)` of the current
text, and a match with empty `replacements` leaves the text unmodified.
Stated for every text and every match sequence. -/
theorem apply_corrections_reverse_splice (text : List Char)
    (ms : List CheckMatch) (m : CheckMatch) :
    apply_corrections text (ms ++ [m]) = apply_corrections (applyOne text m) ms
    ∧ apply_corrections text [] = text
    ∧ (m.replacements = [] → applyOne text m = text)
    ∧ (∀ r rs, m.replacements = r :: rs →
        applyOne text m = text.take m.offset ++ r ++ text.drop (m.offset + m.errorLength)) := by
  refine ⟨?_, rfl, ?_, ?_⟩
  · simp [apply_corrections, List.reverse_append]
  · intro h
    unfold applyOne
    rw [h]
  · intro r rs h
    unfold applyOne
    rw [h]

/-- Witness for C1 at concrete inputs. -/
theorem apply_corrections_reverse_splice_witness :
    applyOne "abc".toList ⟨0, 1, "g", "m", []⟩ = "abc".toList
    ∧ applyOne "abc".toList ⟨0, 1, "g", "m", ["X".toList]⟩ =
        "abc".toList.take 0 ++ "X".toList ++ "abc".toList.drop 1 := by
  constructor
  · exact (apply_corrections_reverse_splice "abc".toList [] ⟨0, 1, "g", "m", []⟩).2.2.1 rfl
  · exact (apply_corrections_reverse_splice "abc".toList [] ⟨0, 1, "g", "m", ["X".toList]⟩).2.2.2
      "X".toList [] rfl

/-- C9: `apply_corrections` is the identity when no correction applies: on the
empty match list, and on any match list all of whose matches have an empty
`replacements` list. -/
theorem apply_corrections_identity (text : List Char) (ms : List CheckMatch) :
    apply_corrections text [] = text
    ∧ ((∀ m, m ∈ ms → m.replacements = []) → apply_corrections text ms = text) := by
  refine ⟨rfl, fun h => ?_⟩
  exact foldl_applyOne_id text ms.reverse fun m hm => h m (List.mem_reverse.mp hm)

/-- Witness for C9 at concrete inputs. -/
theorem apply_corrections_identity_witness :
    apply_corrections "ab".toList [⟨0, 1, "g", "m", []⟩, ⟨1, 1, "s", "m2", []⟩] = "ab".toList := by
  exact (apply_corrections_identity "ab".toList
    [⟨0, 1, "g", "m", []⟩, ⟨1, 1, "s", "m2", []⟩]).2 (by decide)

/-- C10: the splice in `apply_corrections` and the substring projection in
`error_details` are total over out-of-range spans: Python slicing clamps, so a
match whose `offset` (or `offset + errorLength`) lies beyond the end of the
text yields a (possibly truncated) result rather than an error; no bounds
check guards the spans, and none is needed since every case is defined. -/
theorem splice_clamps_out_of_range (text : List Char) (m : CheckMatch)
    (r : List Char) (rs : List (List Char)) (hr : m.replacements = r :: rs) :
    (text.length ≤ m.offset →
      applyOne text m = text ++ r ∧ (mkErrorDetail text m).text = [])
    ∧ (text.length ≤ m.offset + m.errorLength →
      applyOne text m = text.take m.offset ++ r
      ∧ (mkErrorDetail text m).text = text.drop m.offset) := by
  have happ : applyOne text m =
      text.take m.offset ++ r ++ text.drop (m.offset + m.errorLength) := by
    unfold applyOne
    rw [hr]
  constructor
  · intro h
    have hdrop : text.drop (m.offset + m.errorLength) = [] :=
      List.drop_eq_nil_of_le (le_trans h (Nat.le_add_right _ _))
    have hdrop0 : text.drop m.offset = [] := List.drop_eq_nil_of_le h
    constructor
    · rw [happ, List.take_of_length_le h, hdrop, List.append_nil]
    · simp [mkErrorDetail, hdrop0]
  · intro h
    have hdrop : text.drop (m.offset + m.errorLength) = [] :=
      List.drop_eq_nil_of_le h
    constructor
    · rw [happ, hdrop, List.append_nil]
    · have hlen : (text.drop m.offset).length ≤ m.errorLength := by
        rw [List.length_drop]
        omega
      simp [mkErrorDetail, List.take_of_length_le hlen]

/-- Witness for C10 at a concrete out-of-range match. -/
theorem splice_clamps_out_of_range_witness :
    (applyOne "ab".toList ⟨5, 2, "g", "m", ["X".toList]⟩ = "ab".toList ++ "X".toList
      ∧ (mkErrorDetail "ab".toList ⟨5, 2, "g", "m", ["X".toList]⟩).text = [])
    ∧ (applyOne "ab".toList ⟨1, 9, "g", "m", ["X".toList]⟩ =
        "ab".toList.take 1 ++ "X".toList
      ∧ (mkErrorDetail "ab".toList ⟨1, 9, "g", "m", ["X".toList]⟩).text =
        "ab".toList.drop 1) := by
  constructor
  · exact (splice_clamps_out_of_range "ab".toList ⟨5, 2, "g", "m", ["X".toList]⟩
      "X".toList [] rfl).1 (by decide)
  · exact (splice_clamps_out_of_range "ab".toList ⟨1, 9, "g", "m", ["X".toList]⟩
      "X".toList [] rfl).2 (by decide)

theorem dictInsert_ne_nil {β : Type} (d : List (List Char × β)) (k : List Char)
    (v : β) : dictInsert d k v ≠ [] := by
  cases d with
  | nil => simp [dictInsert]
  | cons p d =>
    obtain ⟨k2, v2⟩ := p
    unfold dictInsert
    split <;> simp

theorem tnwLoop_ne_nil (oracle : Nat → List Char → Except (List Char) (List Char))
    (ws : List (List Char)) (d : List (List Char × List Char)) (i : Nat)
    (h : d ≠ []) : tnwLoop oracle d i ws ≠ [] := by
  induction ws generalizing d i with
  | nil => exact h
  | cons w ws ih => exact ih _ (i + 1) (dictInsert_ne_nil d w _)

/-- A demonstration translation oracle used by the concrete witnesses: it
fails on the word `сбой` and otherwise appends one marker character per call
index, so that distinct calls on the same word are distinguishable. -/
def oracleDemo (i : Nat) (w : List Char) : Except (List Char) (List Char) :=
  if w = "сбой".toList then Except.error "нет сети".toList
  else Except.ok (w ++ List.replicate i '*')

/-- C2: the `word_count` produced by `analyze_text` is the number of
whitespace-delimited tokens of the original input text, and it is unchanged
by corrections: it does not depend on the match sequence (nor on the
translator), even when the corrections change the token count of
`corrected_text`. -/
theorem analyze_word_count_from_original
    (oracle oracle2 : Nat → List Char → Except (List Char) (List Char))
    (text : List Char) (ms ms2 : List CheckMatch) :
    (analyze_text oracle text ms).word_count = (pySplit text).length
    ∧ (analyze_text oracle text ms).word_count =
        (analyze_text oracle2 text ms2).word_count :=
  ⟨rfl, rfl⟩

/-- C3: `analyze_text` satisfies
`error_count = length error_details = length ms`, and `error_details`
projects each match, in order, to the record with its category, the substring
`text[offset : offset + errorLength]` of the original text, its message and
its replacement list. -/
theorem analyze_error_details_invariant
    (oracle : Nat → List Char → Except (List Char) (List Char))
    (text : List Char) (ms : List CheckMatch) :
    (analyze_text oracle text ms).error_count =
      (analyze_text oracle text ms).error_details.length
    ∧ (analyze_text oracle text ms).error_count = ms.length
    ∧ ∀ (i : Nat) (m : CheckMatch), ms[i]? = some m →
        (analyze_text oracle text ms).error_details[i]? =
          some (⟨m.ruleIssueType, (text.drop m.offset).take m.errorLength,
                m.message, m.replacements⟩ : ErrorDetail) := by
  refine ⟨by simp [analyze_text], rfl, fun i m h => ?_⟩
  simp only [analyze_text, List.getElem?_map, h, Option.map_some]
  rfl

/-- Witness for C3 at concrete inputs. -/
theorem analyze_error_details_invariant_witness :
    (analyze_text oracleDemo "a b".toList
        [⟨0, 1, "grammar", "msg", ["X".toList]⟩]).error_details[0]? =
      some ⟨"grammar", ("a b".toList.drop 0).take 1, "msg", ["X".toList]⟩ := by
  exact (analyze_error_details_invariant oracleDemo "a b".toList
    [⟨0, 1, "grammar", "msg", ["X".toList]⟩]).2.2 0
    ⟨0, 1, "grammar", "msg", ["X".toList]⟩ rfl

/-- C4: `translate_native_words` on the empty word list returns the fixed
single-entry sentinel dict (no foreign-language words / translation not
required), and on no input does it return an empty dict. -/
theorem translate_native_words_sentinel
    (oracle : Nat → List Char → Except (List Char) (List Char))
    (words : List (List Char)) :
    translate_native_words oracle [] =
      [("Нет слов на родном языке".toList, "Перевод не требуется".toList)]
    ∧ translate_native_words oracle words ≠ [] := by
  refine ⟨rfl, ?_⟩
  cases words with
  | nil => simp [translate_native_words]
  | cons w ws =>
    show (if (w :: ws).isEmpty then _ else tnwLoop oracle [] 0 (w :: ws)) ≠ []
    rw [List.isEmpty_cons, if_neg (by simp)]
    show tnwLoop oracle (dictInsert [] w _) 1 ws ≠ []
    exact tnwLoop_ne_nil oracle ws _ 1 (dictInsert_ne_nil [] w _)

theorem dictLookup_dictInsert_self {β : Type} (d : List (List Char × β))
    (k : List Char) (v : β) : dictLookup (dictInsert d k v) k = some v := by
  induction d with
  | nil => simp [dictInsert, dictLookup]
  | cons p d ih =>
    obtain ⟨k2, v2⟩ := p
    by_cases hk : k2 = k
    · simp only [dictInsert]
      rw [if_pos hk]
      simp only [dictLookup]
      rw [if_pos hk]
    · simp only [dictInsert]
      rw [if_neg hk]
      simp only [dictLookup]
      rw [if_neg hk]
      exact ih

theorem dictLookup_dictInsert_ne {β : Type} (d : List (List Char × β))
    (k w : List Char) (v : β) (hkw : k ≠ w) :
    dictLookup (dictInsert d k v) w = dictLookup d w := by
  induction d with
  | nil =>
    simp only [dictInsert, dictLookup]
    rw [if_neg hkw]
  | cons p d ih =>
    obtain ⟨k2, v2⟩ := p
    by_cases hk : k2 = k
    · simp only [dictInsert]
      rw [if_pos hk]
      simp only [dictLookup]
      rw [if_neg (hk ▸ hkw), if_neg (hk ▸ hkw)]
    · simp only [dictInsert]
      rw [if_neg hk]
      simp only [dictLookup]
      by_cases hw : k2 = w
      · rw [if_pos hw, if_pos hw]
      · rw [if_neg hw, if_neg hw, ih]

theorem lastIdxFrom_cons (w x : List Char) (xs : List (List Char)) (i : Nat) :
    lastIdxFrom w (x :: xs) i =
      match lastIdxFrom w xs (i + 1) with
      | some j => some j
      | none => if x = w then some i else none := rfl

theorem lastIdxFrom_isSome (w : List Char) (ws : List (List Char)) :
    ∀ i : Nat, (lastIdxFrom w ws i).isSome = true ↔ w ∈ ws := by
  induction ws with
  | nil => intro i; simp [lastIdxFrom]
  | cons x xs ih =>
    intro i
    rw [lastIdxFrom_cons]
    cases hx : lastIdxFrom w xs (i + 1) with
    | some j =>
      have hmem : w ∈ xs := (ih (i + 1)).mp (by rw [hx]; rfl)
      simp [List.mem_cons, hmem]
    | none =>
      have hw : ¬ w ∈ xs := fun hmem => by
        have hs := (ih (i + 1)).mpr hmem
        rw [hx] at hs
        simp at hs
      by_cases hxw : x = w
      · simp [hxw, List.mem_cons]
      · simp only [if_neg hxw, List.mem_cons]
        constructor
        · intro hs; simp at hs
        · intro hs
          rcases hs with hs | hs
          · exact absurd hs.symm hxw
          · exact absurd hs hw

theorem tnwLoop_lookup (oracle : Nat → List Char → Except (List Char) (List Char))
    (ws : List (List Char)) :
    ∀ (d : List (List Char × List Char)) (i : Nat) (w : List Char),
      (∀ j : Nat, lastIdxFrom w ws i = some j →
        dictLookup (tnwLoop oracle d i ws) w = some (transResult oracle j w))
      ∧ (lastIdxFrom w ws i = none →
        dictLookup (tnwLoop oracle d i ws) w = dictLookup d w) := by
  induction ws with
  | nil =>
    intro d i w
    constructor
    · intro j h; simp [lastIdxFrom] at h
    · intro _; rfl
  | cons x xs ih =>
    intro d i w
    constructor
    · intro j h
      rw [lastIdxFrom_cons] at h
      show dictLookup
        (tnwLoop oracle (dictInsert d x (transResult oracle i x)) (i + 1) xs) w = _
      cases hx : lastIdxFrom w xs (i + 1) with
      | some j2 =>
        rw [hx] at h
        have hj : j2 = j := Option.some_inj.mp h
        rw [← hj]
        exact (ih _ (i + 1) w).1 j2 hx
      | none =>
        rw [hx] at h
        by_cases hxw : x = w
        · subst hxw
          rw [if_pos rfl] at h
          have hji : i = j := Option.some_inj.mp h
          rw [(ih _ (i + 1) x).2 hx, dictLookup_dictInsert_self, ← hji]
        · rw [if_neg hxw] at h
          exact absurd h (by simp)
    · intro h
      rw [lastIdxFrom_cons] at h
      show dictLookup
        (tnwLoop oracle (dictInsert d x (transResult oracle i x)) (i + 1) xs) w =
        dictLookup d w
      cases hx : lastIdxFrom w xs (i + 1) with
      | some j2 => rw [hx] at h; simp at h
      | none =>
        rw [hx] at h
        by_cases hxw : x = w
        · rw [if_pos hxw] at h; simp at h
        · rw [(ih _ (i + 1) w).2 hx, dictLookup_dictInsert_ne d x w _ hxw]

theorem translate_native_words_lookup
    (oracle : Nat → List Char → Except (List Char) (List Char))
    (words : List (List Char)) (w : List Char) (j : Nat)
    (hj : lastIdxFrom w words 0 = some j) :
    dictLookup (translate_native_words oracle words) w =
      some (transResult oracle j w) := by
  cases words with
  | nil => simp [lastIdxFrom] at hj
  | cons x xs =>
    show dictLookup
      (if (x :: xs).isEmpty = true then _ else tnwLoop oracle [] 0 (x :: xs)) w = _
    rw [List.isEmpty_cons, if_neg (by simp)]
    exact (tnwLoop_lookup oracle (x :: xs) [] 0 w).1 j hj

/-- C5: per-word failure isolation in `translate_native_words`: every word of
the list ends up in the mapping with the result of its last translation
attempt — the localized error placeholder `Ошибка перевода: <message>` when
that call failed, the translated text when it succeeded — so one word's
failure never omits another word and never aborts the batch (the function is
total by construction). -/
theorem translate_native_words_isolation
    (oracle : Nat → List Char → Except (List Char) (List Char))
    (words : List (List Char)) (w : List Char) (j : Nat)
    (hj : lastIdxFrom w words 0 = some j) :
    dictLookup (translate_native_words oracle words) w =
      some (transResult oracle j w)
    ∧ (∀ u, u ∈ words ↔ (lastIdxFrom u words 0).isSome = true)
    ∧ (∀ (i : Nat) (u e : List Char), oracle i u = Except.error e →
        transResult oracle i u = "Ошибка перевода: ".toList ++ e)
    ∧ (∀ (i : Nat) (u t : List Char), oracle i u = Except.ok t →
        transResult oracle i u = t) := by
  refine ⟨translate_native_words_lookup oracle words w j hj,
    fun u => (lastIdxFrom_isSome u words 0).symm, ?_, ?_⟩
  · intro i u e h
    unfold transResult
    rw [h]
  · intro i u t h
    unfold transResult
    rw [h]

/-- Witness for C5: with the demonstration oracle, `сбой` fails and `мир`
succeeds, and the resulting mapping contains both. -/
theorem translate_native_words_isolation_witness :
    dictLookup (translate_native_words oracleDemo ["сбой".toList, "мир".toList])
        "сбой".toList = some "Ошибка перевода: нет сети".toList
    ∧ dictLookup (translate_native_words oracleDemo ["сбой".toList, "мир".toList])
        "мир".toList = some "мир*".toList := by
  constructor
  · have h := (translate_native_words_isolation oracleDemo
      ["сбой".toList, "мир".toList] "сбой".toList 0 (by decide)).1
    rw [h]
    decide
  · have h := (translate_native_words_isolation oracleDemo
      ["сбой".toList, "мир".toList] "мир".toList 1 (by decide)).1
    rw [h]
    decide

/-- C6: the words handed to `translate_native_words` by `analyze_text` are
exactly the whitespace-delimited tokens of the original text that contain at
least one non-ASCII character, preserving duplicates and order (the list is a
filter, hence a sublist, of the token list); each occurrence is translated by
its own oracle call, and the mapping, keyed by word, holds the result of the
last translation attempt of that word. -/
theorem analyze_native_words_translation
    (oracle : Nat → List Char → Except (List Char) (List Char))
    (text : List Char) (ms : List CheckMatch) :
    (analyze_text oracle text ms).translations =
      translate_native_words oracle (nativeWords text)
    ∧ nativeWords text = (pySplit text).filter (fun w => ! pyIsAscii w)
    ∧ (∀ w, w ∈ nativeWords text ↔
        w ∈ pySplit text ∧ ∃ c, c ∈ w ∧ 128 ≤ c.toNat)
    ∧ (nativeWords text).Sublist (pySplit text)
    ∧ (∀ (w : List Char) (j : Nat), lastIdxFrom w (nativeWords text) 0 = some j →
        dictLookup ((analyze_text oracle text ms).translations) w =
          some (transResult oracle j w)) := by
  refine ⟨rfl, rfl, ?_, List.filter_sublist _, ?_⟩
  · intro w
    rw [nativeWords, List.mem_filter]
    constructor
    · rintro ⟨hmem, hnat⟩
      refine ⟨hmem, ?_⟩
      rw [Bool.not_eq_true', pyIsAscii, List.all_eq_false] at hnat
      obtain ⟨c, hc, hcn⟩ := hnat
      exact ⟨c, hc, Nat.not_lt.mp fun hlt => hcn (decide_eq_true hlt)⟩
    · rintro ⟨hmem, c, hc, hcn⟩
      refine ⟨hmem, ?_⟩
      rw [Bool.not_eq_true', pyIsAscii, List.all_eq_false]
      exact ⟨c, hc, fun hd => Nat.not_lt.mpr hcn (of_decide_eq_true hd)⟩
  · intro w j hj
    exact translate_native_words_lookup oracle (nativeWords text) w j hj

/-- Witness for C6: the token `мир` occurs twice in the input, is translated
twice, and the mapping holds the result of the second (index 1) call. -/
theorem analyze_native_words_translation_witness :
    dictLookup ((analyze_text oracleDemo "мир x мир".toList []).translations)
      "мир".toList = some "мир*".toList := by
  have h := (analyze_native_words_translation oracleDemo
    "мир x мир".toList []).2.2.2.2 "мир".toList 1 (by decide)
  rw [h]
  decide

theorem counterAdd_ne_nil (d : List (String × Nat)) (k : String) :
    counterAdd d k ≠ [] := by
  cases d with
  | nil => simp [counterAdd]
  | cons p d =>
    obtain ⟨k2, n⟩ := p
    unfold counterAdd
    split <;> simp

theorem foldl_counterAdd_ne_nil (l : List String) (d : List (String × Nat))
    (h : d ≠ []) : l.foldl counterAdd d ≠ [] := by
  induction l generalizing d with
  | nil => exact h
  | cons k l ih => exact ih _ (counterAdd_ne_nil d k)

theorem pySubPunctSpace_cons (c : Char) (l : List Char) :
    ∃ t, pySubPunctSpace (c :: l) = c :: t := by
  cases l with
  | nil => exact ⟨[], rfl⟩
  | cons c2 rest =>
    unfold pySubPunctSpace
    split
    · exact ⟨_, rfl⟩
    · exact ⟨_, rfl⟩

theorem noAdjacentPunct_tail (x : Char) (l : List Char)
    (h : noAdjacentPunct (x :: l) = true) : noAdjacentPunct l = true := by
  cases l with
  | nil => rfl
  | cons y l =>
    have hh : ((!(pyIsPunct x && pyIsPunct y)) && noAdjacentPunct (y :: l)) = true := h
    exact (Bool.and_eq_true_iff.mp hh).2

theorem noPunctThenNonspace_of_noAdjacentPunct (s : List Char)
    (hadj : noAdjacentPunct s = true) :
    noPunctThenNonspace (pySubPunctSpace s) = true := by
  induction s using pySubPunctSpace.induct with
  | case1 => rfl
  | case2 c => rfl
  | case3 c1 c2 rest hmatch ih =>
    rw [show pySubPunctSpace (c1 :: c2 :: rest) = c1 :: ' ' :: c2 :: pySubPunctSpace rest from by
      simp only [pySubPunctSpace]; rw [if_pos hmatch]]
    have hpc1 : pyIsPunct c1 = true := (Bool.and_eq_true_iff.mp hmatch).1
    have hadj2 : ((!(pyIsPunct c1 && pyIsPunct c2)) && noAdjacentPunct (c2 :: rest)) = true := hadj
    have hpc2 : pyIsPunct c2 = false := by
      have := (Bool.and_eq_true_iff.mp hadj2).1
      rw [hpc1] at this
      simpa using this
    have hrest : noPunctThenNonspace (pySubPunctSpace rest) = true :=
      ih (noAdjacentPunct_tail c2 rest (Bool.and_eq_true_iff.mp hadj2).2)
    show ((!(pyIsPunct c1 && ! pyIsSpace ' ')) &&
      noPunctThenNonspace (' ' :: c2 :: pySubPunctSpace rest)) = true
    rw [show pyIsSpace ' ' = true from rfl]
    show ((!(pyIsPunct c1 && false)) &&
      ((!(pyIsPunct ' ' && ! pyIsSpace c2)) &&
        noPunctThenNonspace (c2 :: pySubPunctSpace rest))) = true
    rw [show pyIsPunct ' ' = false from rfl]
    cases hfix : pySubPunctSpace rest with
    | nil => simp [noPunctThenNonspace]
    | cons d t =>
      rw [hfix] at hrest
      show ((!(pyIsPunct c1 && false)) && ((!(false && ! pyIsSpace c2)) &&
        ((!(pyIsPunct c2 && ! pyIsSpace d)) && noPunctThenNonspace (d :: t)))) = true
      rw [hpc2]
      have hrest2 : noPunctThenNonspace (d :: t) = true := by
        cases t with
        | nil => rfl
        | cons e t2 => exact hrest
      simp [hrest2]
  | case4 c1 c2 rest hnomatch ih =>
    rw [show pySubPunctSpace (c1 :: c2 :: rest) = c1 :: pySubPunctSpace (c2 :: rest) from by
      simp only [pySubPunctSpace]; rw [if_neg hnomatch]]
    obtain ⟨t, ht⟩ := pySubPunctSpace_cons c2 rest
    have h1 : (pyIsPunct c1 && ! pyIsSpace c2) = false := by
      cases h : (pyIsPunct c1 && ! pyIsSpace c2) with
      | false => rfl
      | true => exact absurd h hnomatch
    have h2 : noPunctThenNonspace (pySubPunctSpace (c2 :: rest)) = true :=
      ih (noAdjacentPunct_tail c1 (c2 :: rest) hadj)
    rw [ht] at h2 ⊢
    show ((!(pyIsPunct c1 && ! pyIsSpace c2)) && noPunctThenNonspace (c2 :: t)) = true
    rw [h1, h2]
    rfl

/-- C7 counterexample: on raw oracle output `.!x` the substitution yields
`. !x` — the `!`, consumed as the non-whitespace character of the first
regex match, is itself followed by a non-whitespace character with no space
inserted, so the normalization does not cover every occurrence. -/
theorem pySubPunctSpace_counterexample :
    pySubPunctSpace ".!x".toList = ". !x".toList
    ∧ noPunctThenNonspace (pySubPunctSpace ".!x".toList) = false := by
  constructor <;> rfl

/-- C7 (amended): `translate_to_russian` post-processes the oracle output
with the single left-to-right non-overlapping pass `pySubPunctSpace`; each
substitution consumes the matched punctuation-plus-character pair, so when
the raw output contains no two adjacent sentence-ending punctuation marks,
every punctuation mark immediately followed by a non-whitespace character
does get a single space inserted after it, and in particular the raw output
`Привет.Как дела?Хорошо` yields `Привет. Как дела? Хорошо`. -/
theorem translate_to_russian_punct_spacing
    (oracle : List Char → Except (List Char) (List Char))
    (text raw : List Char) (hok : oracle text = Except.ok raw) :
    translate_to_russian oracle text = Except.ok (text, pySubPunctSpace raw)
    ∧ (noAdjacentPunct raw = true →
        noPunctThenNonspace (pySubPunctSpace raw) = true)
    ∧ pySubPunctSpace "Привет.Как дела?Хорошо".toList =
        "Привет. Как дела? Хорошо".toList := by
  refine ⟨?_, noPunctThenNonspace_of_noAdjacentPunct raw, by rfl⟩
  unfold translate_to_russian
  rw [hok]

/-- Witness for C7 (amended) at a concrete oracle and raw output. -/
theorem translate_to_russian_punct_spacing_witness :
    translate_to_russian (fun _ => Except.ok "Привет.Как дела?Хорошо".toList)
        "hello".toList =
      Except.ok ("hello".toList, pySubPunctSpace "Привет.Как дела?Хорошо".toList)
    ∧ noPunctThenNonspace (pySubPunctSpace "Привет.Как дела?Хорошо".toList) = true := by
  have h := translate_to_russian_punct_spacing
    (fun _ => Except.ok "Привет.Как дела?Хорошо".toList) "hello".toList
    "Привет.Как дела?Хорошо".toList rfl
  exact ⟨h.1, h.2.1 (by decide)⟩

/-- C8: the `/error_chart` endpoint short-circuits on an empty match
sequence: it replies with the no-error message and the chart renderer is
never reached, and whenever it does reply with a chart, the bar data is
non-empty — an image with zero bars is never produced. -/
theorem error_chart_empty_guard (ms : List CheckMatch) :
    (ms = [] → error_chart ms = ChartResponse.message "Ошибок не обнаружено")
    ∧ (∀ bars, error_chart ms = ChartResponse.image bars → bars ≠ []) := by
  constructor
  · intro h
    subst h
    rfl
  · intro bars h
    cases ms with
    | nil => simp [error_chart] at h
    | cons m ms2 =>
      have hb : bars = create_error_chart (m :: ms2) := by
        rw [show error_chart (m :: ms2) =
          ChartResponse.image (create_error_chart (m :: ms2)) from rfl] at h
        exact (ChartResponse.image.inj h).symm
      subst hb
      show pyCounter ((m :: ms2).map fun m => m.ruleIssueType) ≠ []
      rw [List.map_cons]
      rw [show pyCounter (m.ruleIssueType :: ms2.map fun m => m.ruleIssueType) =
        List.foldl counterAdd (counterAdd [] m.ruleIssueType)
          (ms2.map fun m => m.ruleIssueType) from rfl]
      exact foldl_counterAdd_ne_nil _ _ (counterAdd_ne_nil [] m.ruleIssueType)

/-- Witness for C8 at concrete inputs. -/
theorem error_chart_empty_guard_witness :
    error_chart [] = ChartResponse.message "Ошибок не обнаружено"
    ∧ create_error_chart [⟨0, 1, "grammar", "m", []⟩] ≠ [] := by
  constructor
  · exact (error_chart_empty_guard []).1 rfl
  · exact (error_chart_empty_guard [⟨0, 1, "grammar", "m", []⟩]).2
      (create_error_chart [⟨0, 1, "grammar", "m", []⟩]) rfl

end Api
